import Mathlib

/-!
Verification of the `ethereal` typed value codec (`cmd/contract.go`) and the
base-fee cache (`conn/currentbasefee.go`) against their specification.

The Go source is shallowly embedded: Go strings become Lean `String`,
byte slices become `List Nat` (each element intended `< 256`), machine
integer conversions become explicit `% 2 ^ w` arithmetic, `*big.Int`
becomes `Int`, and fallible code returns an explicit result type with
`ok`, `fail` and `crash` (Go runtime panic) outcomes.
-/

namespace Ethereal

/-! ## Go standard-library string primitives used by the source -/

/-- Go `strings.TrimPrefix(s, "0x")`: remove one leading `"0x"` if present. -/
def trimPrefix0x (s : String) : String :=
  match s.data with
  | '0' :: 'x' :: rest => ⟨rest⟩
  | _ => s

/-- Drop leading `' '` characters from a character list. -/
def dropSpaces : List Char → List Char
  | [] => []
  | c :: rest => if c = ' ' then dropSpaces rest else c :: rest

/-- Go `strings.Trim(s, " ")`: remove leading and trailing space characters. -/
def goTrim (s : String) : String :=
  ⟨dropSpaces (dropSpaces s.data.reverse).reverse⟩

/-- Value of one hexadecimal digit character, as accepted by Go
`encoding/hex` (both cases accepted). -/
def hexDigitVal (c : Char) : Option Nat :=
  if '0' ≤ c ∧ c ≤ '9' then some (c.toNat - '0'.toNat)
  else if 'a' ≤ c ∧ c ≤ 'f' then some (c.toNat - 'a'.toNat + 10)
  else if 'A' ≤ c ∧ c ≤ 'F' then some (c.toNat - 'A'.toNat + 10)
  else none

/-- Go `hex.DecodeString` on a character list: pairs of hex digits to bytes;
`none` on an odd-length input or an invalid digit. -/
def hexDecodeList : List Char → Option (List Nat)
  | [] => some []
  | [_] => none
  | a :: b :: rest =>
    match hexDigitVal a, hexDigitVal b, hexDecodeList rest with
    | some hi, some lo, some tail => some ((hi * 16 + lo) :: tail)
    | _, _, _ => none

/-- Go `hex.DecodeString`, as an `Option`: `none` exactly when Go reports
a decoding error. -/
def hexDecode (s : String) : Option (List Nat) :=
  hexDecodeList s.data

/-- Lowercase hex digit character for a value `< 16`. -/
def hexDigitChar (n : Nat) : Char :=
  if n < 10 then Char.ofNat ('0'.toNat + n) else Char.ofNat ('a'.toNat + n - 10)

/-- The two lowercase hex digits of a byte, most significant first. -/
def byteToHex (b : Nat) : List Char :=
  [hexDigitChar (b / 16), hexDigitChar (b % 16)]

/-- Go `hex.EncodeToString`: lowercase hex of a byte sequence. -/
def hexEncode (bs : List Nat) : String :=
  ⟨(bs.map byteToHex).flatten⟩

/-- Uppercase a hex digit when the flag is set (used to model checksum
casing of rendered addresses). -/
def capDigit (c : Char) (up : Bool) : Char :=
  if up then c.toUpper else c

/-- Apply a list of per-character uppercase flags to a character list;
missing flags leave characters unchanged. -/
def applyCaps : List Bool → List Char → List Char
  | _, [] => []
  | [], cs => cs
  | u :: us, c :: cs => capDigit c u :: applyCaps us cs

/-! ## Decimal formatting and parsing (Go `fmt` `%v` and `big.Int.SetString`) -/

/-- Decimal digit character for a value `< 10`. -/
def decDigitChar (d : Nat) : Char := Char.ofNat ('0'.toNat + d)

/-- Decimal digits of `n`, least significant first, via repeated division;
`fuel`-structured so that the definition evaluates in the kernel
(`fuel = n` always suffices). -/
def natDigitsRev : Nat → Nat → List Nat
  | _, 0 => []
  | 0, _ + 1 => []
  | fuel + 1, n + 1 => ((n + 1) % 10) :: natDigitsRev fuel ((n + 1) / 10)

/-- Decimal rendering of a natural number (Go `fmt` `%v` on unsigned
integers and nonnegative `*big.Int`). -/
def natToDec (n : Nat) : String :=
  if n = 0 then "0" else ⟨((natDigitsRev n n).reverse.map decDigitChar)⟩

/-- Decimal rendering of an integer (Go `fmt` `%v` on signed integers and
`*big.Int`). -/
def intToDec (i : Int) : String :=
  if i < 0 then "-" ++ natToDec i.natAbs else natToDec i.natAbs

/-- Value of one decimal digit character. -/
def decDigitVal (c : Char) : Option Nat :=
  if '0' ≤ c ∧ c ≤ '9' then some (c.toNat - '0'.toNat) else none

/-- Accumulating parse of a run of decimal digits; fails on any
non-digit. -/
def parseDecAux (acc : Nat) : List Char → Option Nat
  | [] => some acc
  | c :: cs =>
    match decDigitVal c with
    | some d => parseDecAux (acc * 10 + d) cs
    | none => none

/-- Go `big.Int.SetString(s, 10)`: optional sign followed by a nonempty
run of decimal digits; `none` when Go returns `ok = false`. -/
def setString10 (s : String) : Option Int :=
  if s.data.head? = some '+' then
    if s.data.tail = [] then none else (parseDecAux 0 s.data.tail).map Int.ofNat
  else if s.data.head? = some '-' then
    if s.data.tail = [] then none else (parseDecAux 0 s.data.tail).map (fun n => -(n : Int))
  else if s.data = [] then none
  else (parseDecAux 0 s.data).map Int.ofNat

/-! ## Machine-integer conversions -/

/-- Go `big.Int.Uint64()`: the low 64 bits of the absolute value of the
integer (this is Go's documented-undefined but actual behaviour: the low
word of `x.abs`). -/
def bigUint64 (n : Int) : Nat := n.natAbs % 2 ^ 64

/-- Go conversion of an unsigned value to a signed `w`-bit integer:
two's-complement reinterpretation of the low `w` bits. -/
def toSigned (w : Nat) (u : Nat) : Int :=
  let m := u % 2 ^ w
  if m < 2 ^ (w - 1) then (m : Int) else (m : Int) - 2 ^ w

/-! ## The ABI type descriptor and typed value models (`abi.Type` and the
dynamic values produced by `contractStringToValue`) -/

/-- The closed set of ABI type tags (`abi.Type.T`). -/
inductive AbiKind where
  | intTy | uintTy | boolTy | stringTy | sliceTy | arrayTy
  | addressTy | fixedBytesTy | bytesTy | hashTy | fixedPointTy | functionTy
deriving DecidableEq, Repr

/-- The `abi.Type` descriptor: tag, bit width / byte size, and the element type of a
container (`Elem *Type`, hence optional). -/
inductive AbiType where
  | mk (t : AbiKind) (size : Nat) (elem : Option AbiType)

/-- The type tag of a descriptor. -/
def AbiType.t : AbiType → AbiKind
  | .mk t _ _ => t

/-- The width/size field of a descriptor. -/
def AbiType.size : AbiType → Nat
  | .mk _ s _ => s

/-- The element descriptor of a container type. -/
def AbiType.elem : AbiType → Option AbiType
  | .mk _ _ e => e

/-- The dynamic (`interface{}`) values flowing through the codec:
fixed-width signed and unsigned integers (width recorded), `*big.Int`,
`bool`, `string`, a 20-byte address, a fixed-size byte array, a byte
slice, a 32-byte hash, and a sequence (for slice/array rendering). -/
inductive Value where
  | vint (width : Nat) (v : Int)
  | vuint (width : Nat) (v : Nat)
  | vbig (v : Int)
  | vbool (b : Bool)
  | vstring (s : String)
  | vaddress (bytes : List Nat)
  | vfixedBytes (bytes : List Nat)
  | vbytes (bytes : List Nat)
  | vhash (bytes : List Nat)
  | vlist (elems : List Value)

/-- The error values produced by the codec, keyed by which
`fmt.Errorf` site in the source produced them. -/
inductive GoErr where
  | badInteger (s : String)
  | unhandledSlice
  | unhandledArray
  | invalidByteSize (n : Nat)
  | badHex
  | unhandledType
deriving DecidableEq, Repr

/-- Result of running a fragment of Go code: a value, a returned error,
or a runtime panic. -/
inductive GoRes (α : Type) where
  | ok (v : α)
  | fail (e : GoErr)
  | crash (msg : String)
deriving DecidableEq

/-! ## External primitives delegated to by the source -/

/-- Fit a byte sequence to exactly `n` bytes: keep the rightmost `n`
bytes, left-padding with zero bytes when short. -/
def fitBytes (n : Nat) (bs : List Nat) : List Nat :=
  let bs := if bs.length > n then bs.drop (bs.length - n) else bs
  List.replicate (n - bs.length) 0 ++ bs

/-- Modelled from the spec: the external address-parsing primitive
(`common.HexToAddress`, absent from `src/`). Per the spec it interprets
the input as a hex string with an optional `0x` prefix and produces a
20-byte address; it is total (its Go signature returns no error), so
undecodable input is modelled as contributing no bytes. -/
def hexToAddress (s : String) : List Nat :=
  fitBytes 20 ((hexDecode (trimPrefix0x s)).getD [])

/-- Modelled from the spec: the external hash-parsing primitive
(`common.HexToHash`, absent from `src/`): hex string with optional `0x`
prefix to a 32-byte hash; total. -/
def hexToHash (s : String) : List Nat :=
  fitBytes 32 ((hexDecode (trimPrefix0x s)).getD [])

/-! ## `contractStringToValue` (cmd/contract.go lines 131-269) -/

/-- Shallow embedding of `contractStringToValue`.  Mirrors the source
switch: trim spaces; integers parse base-10 then narrow through
`big.Int.Uint64` for widths 8/16/32/64; booleans compare against three
literals; strings pass through; slices/arrays are unhandled; addresses
and hashes delegate to the lenient hex primitives; fixed bytes decode
hex and right-align into a zero buffer (the decode error is checked only
to guard the copy and is never returned — and an oversized decode makes
the Go slice expression's lower bound negative, a runtime panic);
bytes decode hex; fixed-point and function types are unhandled. -/
def contractStringToValue (argType : AbiType) (val : String) : GoRes Value :=
  let val := goTrim val
  match argType with
  | .mk t size _elem =>
    match t with
    | .intTy =>
      match setString10 val with
      | none => .fail (.badInteger val)
      | some res =>
        if size = 8 then .ok (.vint 8 (toSigned 8 (bigUint64 res)))
        else if size = 16 then .ok (.vint 16 (toSigned 16 (bigUint64 res)))
        else if size = 32 then .ok (.vint 32 (toSigned 32 (bigUint64 res)))
        else if size = 64 then .ok (.vint 64 (toSigned 64 (bigUint64 res)))
        else .ok (.vbig res)
    | .uintTy =>
      match setString10 val with
      | none => .fail (.badInteger val)
      | some res =>
        if size = 8 then .ok (.vuint 8 (bigUint64 res % 2 ^ 8))
        else if size = 16 then .ok (.vuint 16 (bigUint64 res % 2 ^ 16))
        else if size = 32 then .ok (.vuint 32 (bigUint64 res % 2 ^ 32))
        else if size = 64 then .ok (.vuint 64 (bigUint64 res % 2 ^ 64))
        else .ok (.vbig res)
    | .boolTy =>
      if val = "true" ∨ val = "True" ∨ val = "1" then .ok (.vbool true)
      else .ok (.vbool false)
    | .stringTy => .ok (.vstring val)
    | .sliceTy => .fail .unhandledSlice
    | .arrayTy => .fail .unhandledArray
    | .addressTy => .ok (.vaddress (hexToAddress val))
    | .fixedBytesTy =>
      match hexDecode (trimPrefix0x val) with
      | some decoded =>
        if size < decoded.length then
          .crash "slice bounds out of range"
        else
          if 1 ≤ size ∧ size ≤ 32 then
            .ok (.vfixedBytes (List.replicate (size - decoded.length) 0 ++ decoded))
          else .fail (.invalidByteSize size)
      | none =>
        if 1 ≤ size ∧ size ≤ 32 then
          .ok (.vfixedBytes (List.replicate size 0))
        else .fail (.invalidByteSize size)
    | .bytesTy =>
      match hexDecode (trimPrefix0x val) with
      | some decoded => .ok (.vbytes decoded)
      | none => .fail .badHex
    | .hashTy => .ok (.vhash (hexToHash val))
    | .fixedPointTy => .fail .unhandledType
    | .functionTy => .fail .unhandledType

/-! ## `contractValueToString` (cmd/contract.go lines 271-326) -/

mutual

/-- Go `fmt.Sprintf("%v", val)` on the dynamic values of the codec:
decimal for integers, `true`/`false` for booleans, the string itself,
and Go's bracketed space-separated form for arrays and slices. -/
def sprintfV : Value → String
  | .vint _ x => intToDec x
  | .vuint _ x => natToDec x
  | .vbig x => intToDec x
  | .vbool b => if b then "true" else "false"
  | .vstring s => s
  | .vaddress bs => "[" ++ String.intercalate " " (bs.map natToDec) ++ "]"
  | .vfixedBytes bs => "[" ++ String.intercalate " " (bs.map natToDec) ++ "]"
  | .vbytes bs => "[" ++ String.intercalate " " (bs.map natToDec) ++ "]"
  | .vhash bs => "[" ++ String.intercalate " " (bs.map natToDec) ++ "]"
  | .vlist vs => "[" ++ String.intercalate " " (sprintfList vs) ++ "]"

def sprintfList : List Value → List String
  | [] => []
  | v :: vs => sprintfV v :: sprintfList vs

end

/-- Modelled from the spec: `common.Address.Hex()` (external go-ethereum
code, absent from `src/`) renders the canonical checksummed hex form:
`0x` followed by the 40 hex digits of the 20 bytes, with the
Keccak-based EIP-55 casing decision abstracted as the `checksum`
parameter (a per-digit uppercase flag computed from the address). -/
def addressHex (checksum : List Nat → List Bool) (bs : List Nat) : String :=
  "0x" ++ ⟨applyCaps (checksum bs) (bs.map byteToHex).flatten⟩

/-- Modelled from the spec: `common.Hash.Hex()` (external, absent from
`src/`): the canonical hex form, `0x` plus lowercase hex digits. -/
def hashHex (bs : List Nat) : String :=
  "0x" ++ hexEncode bs

mutual

/-- Shallow embedding of `contractValueToString`.  Mirrors the source
switch: integers format with `%v`; booleans and strings type-assert
(a mismatched dynamic type is a Go runtime panic, modelled as `crash`);
slices and arrays render elements recursively with the element
descriptor, join with `,` and wrap in `[` `]` (a nil element descriptor
would be a nil-pointer dereference); addresses render checksummed,
fixed bytes and byte slices render as `0x` plus lowercase hex (the
fixed-bytes branch reads any byte-array-shaped value via reflection),
hashes render canonically; fixed-point and function types fail. -/
def contractValueToString (checksum : List Nat → List Bool)
    (argType : AbiType) (val : Value) : GoRes String :=
  match argType with
  | .mk t _size elem =>
    match t with
    | .intTy => .ok (sprintfV val)
    | .uintTy => .ok (sprintfV val)
    | .boolTy =>
      match val with
      | .vbool b => if b then .ok "true" else .ok "false"
      | _ => .crash "interface conversion"
    | .stringTy =>
      match val with
      | .vstring s => .ok s
      | _ => .crash "interface conversion"
    | .sliceTy =>
      match val with
      | .vlist elems =>
        match elem with
        | some e =>
          match renderElems checksum e elems with
          | .ok parts => .ok ("[" ++ String.intercalate "," parts ++ "]")
          | .fail er => .fail er
          | .crash m => .crash m
        | none => .crash "nil pointer dereference"
      | _ => .crash "reflect: Len of non-container"
    | .arrayTy =>
      match val with
      | .vlist elems =>
        match elem with
        | some e =>
          match renderElems checksum e elems with
          | .ok parts => .ok ("[" ++ String.intercalate "," parts ++ "]")
          | .fail er => .fail er
          | .crash m => .crash m
        | none => .crash "nil pointer dereference"
      | _ => .crash "reflect: Len of non-container"
    | .addressTy =>
      match val with
      | .vaddress bs => .ok (addressHex checksum bs)
      | _ => .crash "interface conversion"
    | .fixedBytesTy =>
      match val with
      | .vfixedBytes bs => .ok ("0x" ++ hexEncode bs)
      | .vaddress bs => .ok ("0x" ++ hexEncode bs)
      | .vhash bs => .ok ("0x" ++ hexEncode bs)
      | .vbytes bs => .ok ("0x" ++ hexEncode bs)
      | _ => .crash "reflect: Len of non-container"
    | .bytesTy =>
      match val with
      | .vbytes bs => .ok ("0x" ++ hexEncode bs)
      | _ => .crash "interface conversion"
    | .hashTy =>
      match val with
      | .vhash bs => .ok (hashHex bs)
      | _ => .crash "interface conversion"
    | .fixedPointTy => .fail .unhandledType
    | .functionTy => .fail .unhandledType

/-- The element loop of the slice/array rendering branches: render each
element with the element descriptor, stopping at the first failure
(the source returns the element's error unchanged). -/
def renderElems (checksum : List Nat → List Bool)
    (e : AbiType) : List Value → GoRes (List String)
  | [] => .ok []
  | v :: vs =>
    match contractValueToString checksum e v with
    | .ok s =>
      match renderElems checksum e vs with
      | .ok parts => .ok (s :: parts)
      | .fail er => .fail er
      | .crash m => .crash m
    | .fail er => .fail er
    | .crash m => .crash m

end

/-! ## `contractUnpack` (cmd/contract.go lines 107-129) -/

/-- Shallow embedding of `contractUnpack`.  The ABI's method table
(`abi.Methods`) is the `methods` map from name to declared output types;
the external binary decoder `abi.Unpack`, together with the
reflection-based allocation of its destination values in the one-output
and multi-output branches, is abstracted as the `decode` parameter.
A missing method name is an error; zero declared outputs return the
empty sequence before any decode; otherwise the raw data is decoded
against the declared outputs. -/
def contractUnpack (methods : String → Option (List AbiType)) (name : String)
    (decode : List AbiType → List Nat → Except String (List Value))
    (data : List Nat) : Except String (List Value) :=
  match methods name with
  | none => .error ("The method " ++ name ++ " does not exist")
  | some outputs =>
    match outputs with
    | [] => .ok []
    | [out] => decode [out] data
    | outs => decode outs data

/-! ## `CurrentBaseFee` (conn/currentbasefee.go lines 27-57) -/

/-- The network client used by `CurrentBaseFee`, at its interface
boundary: a block-number fetch and a block-by-number fetch.  Block
headers are opaque payloads (`Nat`) consumed only by the external base
fee computation. -/
structure GoClient where
  blockNumber : Except String Nat
  blockByNumber : Int → Except String Nat

/-- The fields of `Conn` read and written by `CurrentBaseFee`: the
optional network client and the lazily cached base fee. -/
structure Conn where
  client : Option GoClient
  baseFeePerGas : Option Int

/-- Shallow embedding of `(*Conn).CurrentBaseFee`, returning the Go
result together with the updated connection state.  `configWei` is the
result of the external `string2eth.StringToWei` on the configured
`base-fee-per-gas` string; `calcBaseFee` is the external
`misc.CalcBaseFee` on the fetched head block's header.  Mirrors the
source: with no client, serve the cache or populate it from the
configuration; with a client, fetch the head block number and block
first (errors propagate), then serve the cache if populated, else
return the computed base fee without caching it.  The block number is
converted through Go's `int64` before the block fetch. -/
def CurrentBaseFee (configWei : Except String Int) (calcBaseFee : Nat → Int)
    (c : Conn) : Except String Int × Conn :=
  match c.client with
  | none =>
    match c.baseFeePerGas with
    | some v => (.ok v, c)
    | none =>
      match configWei with
      | .ok v => (.ok v, { c with baseFeePerGas := some v })
      | .error e => (.error e, { c with baseFeePerGas := none })
  | some client =>
    match client.blockNumber with
    | .error e => (.error e, c)
    | .ok blockNum =>
      match client.blockByNumber (toSigned 64 blockNum) with
      | .error e => (.error e, c)
      | .ok header =>
        match c.baseFeePerGas with
        | some v => (.ok v, c)
        | none => (.ok (calcBaseFee header), c)

/-! ## Spec-side definitions used to state the round-trip claim -/

/-- Value of a decimal digit list, least significant digit first. -/
def decValRev : List Nat → Nat
  | [] => 0
  | d :: ds => d + 10 * decValRev ds

/-- The claim's "value representable at a scalar descriptor", following
the spec's data model (section 3): matching constructor, matching
fixed width, and in-range payloads. -/
def representable : AbiType → Value → Bool
  | .mk .intTy w _, .vint w2 x =>
    w2 == w && (w == 8 || w == 16 || w == 32 || w == 64)
      && decide (-(2 ^ (w - 1) : Int) ≤ x) && decide (x < (2 ^ (w - 1) : Int))
  | .mk .intTy w _, .vbig _ => !(w == 8 || w == 16 || w == 32 || w == 64)
  | .mk .uintTy w _, .vuint w2 x =>
    w2 == w && (w == 8 || w == 16 || w == 32 || w == 64) && decide (x < 2 ^ w)
  | .mk .uintTy w _, .vbig x =>
    !(w == 8 || w == 16 || w == 32 || w == 64) && decide (0 ≤ x)
  | .mk .boolTy _ _, .vbool _ => true
  | .mk .stringTy _ _, .vstring _ => true
  | .mk .addressTy _ _, .vaddress bs => bs.length == 20 && bs.all (· < 256)
  | .mk .bytesTy _ _, .vbytes bs => bs.all (· < 256)
  | .mk .hashTy _ _, .vhash bs => bs.length == 32 && bs.all (· < 256)
  | _, _ => false

/-- The amended claim's exception list: fixed-width signed integer
values not preserved by the truncate-via-`Uint64` pipeline, and string
values altered by parse-side space trimming. -/
def unexcepted : AbiType → Value → Bool
  | .mk .intTy _ _, .vint w x => decide (toSigned w (bigUint64 x) = x)
  | .mk .stringTy _ _, .vstring s => goTrim s == s
  | _, _ => true

/-! ## Theorems -/


/-! ## Helper lemmas: strings and trimming -/

theorem applyCaps_nil : ∀ cs : List Char, applyCaps [] cs = cs
  | [] => rfl
  | _ :: _ => rfl

theorem dropSpaces_eq_self {l : List Char} (h : ∀ c ∈ l, c ≠ ' ') :
    dropSpaces l = l := by
  cases l with
  | nil => rfl
  | cons c rest =>
    have hc : c ≠ ' ' := h c (by simp)
    simp [dropSpaces, hc]

theorem goTrim_eq_self {l : List Char} (h : ∀ c ∈ l, c ≠ ' ') :
    goTrim ⟨l⟩ = ⟨l⟩ := by
  unfold goTrim
  rw [show (String.mk l).data = l from rfl]
  rw [dropSpaces_eq_self (fun c hc => h c (List.mem_reverse.mp hc))]
  rw [List.reverse_reverse, dropSpaces_eq_self h]

theorem trimPrefix0x_append (s : String) : trimPrefix0x ("0x" ++ s) = s := by
  obtain ⟨l⟩ := s
  show trimPrefix0x ⟨'0' :: 'x' :: l⟩ = ⟨l⟩
  rfl

/-! ## Helper lemmas: decimal digits -/

theorem decDigitVal_decDigitChar : ∀ d, d < 10 → decDigitVal (decDigitChar d) = some d := by
  decide

theorem decDigitChar_range : ∀ d, d < 10 → '0' ≤ decDigitChar d ∧ decDigitChar d ≤ '9' := by
  decide

theorem digit_ne_signs {c : Char} (h : '0' ≤ c ∧ c ≤ '9') :
    c ≠ '+' ∧ c ≠ '-' ∧ c ≠ ' ' := by
  refine ⟨?_, ?_, ?_⟩ <;> intro he <;> subst he
  · exact absurd h.1 (by decide)
  · exact absurd h.1 (by decide)
  · exact absurd h.1 (by decide)

theorem natDigitsRev_val : ∀ fuel n, n ≤ fuel → decValRev (natDigitsRev fuel n) = n := by
  intro fuel
  induction fuel with
  | zero =>
    intro n hn
    interval_cases n
    rfl
  | succ f ih =>
    intro n hn
    cases n with
    | zero => rfl
    | succ m =>
      show decValRev ((m + 1) % 10 :: natDigitsRev f ((m + 1) / 10)) = m + 1
      have hdiv : (m + 1) / 10 ≤ f := by
        have := Nat.div_lt_self (Nat.succ_pos m) (by norm_num : 1 < 10)
        omega
      simp only [decValRev, ih _ hdiv]
      exact Nat.mod_add_div (m + 1) 10

theorem natDigitsRev_lt : ∀ fuel n, ∀ d ∈ natDigitsRev fuel n, d < 10 := by
  intro fuel
  induction fuel with
  | zero =>
    intro n d hd
    cases n <;> simp [natDigitsRev] at hd
  | succ f ih =>
    intro n d hd
    cases n with
    | zero => simp [natDigitsRev] at hd
    | succ m =>
      rw [show natDigitsRev (f + 1) (m + 1)
            = (m + 1) % 10 :: natDigitsRev f ((m + 1) / 10) from rfl] at hd
      rcases List.mem_cons.mp hd with h | h
      · subst h; exact Nat.mod_lt _ (by norm_num)
      · exact ih _ _ h

theorem foldl_dec_reverse : ∀ (ds : List Nat) (acc : Nat),
    ds.reverse.foldl (fun a d => a * 10 + d) acc = acc * 10 ^ ds.length + decValRev ds := by
  intro ds
  induction ds with
  | nil => intro acc; simp [decValRev]
  | cons d rest ih =>
    intro acc
    simp [List.reverse_cons, List.foldl_append, ih, decValRev]
    ring

theorem parseDecAux_map : ∀ (ds : List Nat) (acc : Nat), (∀ d ∈ ds, d < 10) →
    parseDecAux acc (ds.map decDigitChar) = some (ds.foldl (fun a d => a * 10 + d) acc) := by
  intro ds
  induction ds with
  | nil => intros; rfl
  | cons d rest ih =>
    intro acc h
    have hd : d < 10 := h d (by simp)
    simp only [List.map_cons, parseDecAux, decDigitVal_decDigitChar d hd]
    exact ih _ (fun x hx => h x (by simp [hx]))

theorem natToDec_spec (n : Nat) :
    (∀ c ∈ (natToDec n).data, '0' ≤ c ∧ c ≤ '9') ∧
    (natToDec n).data ≠ [] ∧
    parseDecAux 0 (natToDec n).data = some n := by
  cases n with
  | zero =>
    refine ⟨?_, by decide, by decide⟩
    intro c hc
    simp [natToDec] at hc
    subst hc
    decide
  | succ m =>
    have hne : natToDec (m + 1)
        = ⟨((natDigitsRev (m + 1) (m + 1)).reverse.map decDigitChar)⟩ := by
      simp [natToDec]
    set ds := natDigitsRev (m + 1) (m + 1) with hds
    have hlt : ∀ d ∈ ds.reverse, d < 10 := by
      intro d hd
      exact natDigitsRev_lt _ _ d (List.mem_reverse.mp hd)
    refine ⟨?_, ?_, ?_⟩
    · intro c hc
      rw [hne] at hc
      simp only [List.mem_map] at hc
      obtain ⟨d, hd, rfl⟩ := hc
      exact decDigitChar_range d (hlt d hd)
    · rw [hne]
      have : ds = (m + 1) % 10 :: natDigitsRev m ((m + 1) / 10) := rfl
      simp [this]
    · rw [hne]
      show parseDecAux 0 (ds.reverse.map decDigitChar) = some (m + 1)
      rw [parseDecAux_map ds.reverse 0 hlt]
      rw [foldl_dec_reverse]
      simp [natDigitsRev_val (m + 1) (m + 1) le_rfl]

theorem setString10_natToDec (n : Nat) : setString10 (natToDec n) = some (n : Int) := by
  obtain ⟨hrange, hne, hparse⟩ := natToDec_spec n
  rcases h : (natToDec n).data with _ | ⟨c, rest⟩
  · exact absurd h hne
  · have hc : '0' ≤ c ∧ c ≤ '9' := hrange c (by rw [h]; simp)
    obtain ⟨h1, h2, _⟩ := digit_ne_signs hc
    unfold setString10
    rw [h]
    simp only [List.head?_cons, Option.some.injEq]
    rw [if_neg (by simp [h1]), if_neg (by simp [h2]), if_neg (by simp)]
    rw [← h, hparse]
    rfl

theorem setString10_intToDec (i : Int) : setString10 (intToDec i) = some i := by
  rcases lt_or_ge i 0 with hneg | hpos
  · have : intToDec i = "-" ++ natToDec i.natAbs := by simp [intToDec, hneg]
    rw [this]
    obtain ⟨hrange, hne, hparse⟩ := natToDec_spec i.natAbs
    unfold setString10
    rw [String.data_append]
    rw [show ("-" : String).data = ['-'] from rfl, List.singleton_append]
    simp only [List.head?_cons, List.tail_cons, Option.some.injEq]
    rw [if_neg (by simp), if_pos trivial, if_neg hne, hparse]
    show some (-(i.natAbs : Int)) = some i
    exact congrArg some (by omega)
  · have : intToDec i = natToDec i.natAbs := by
      simp [intToDec, not_lt.mpr hpos]
    rw [this, setString10_natToDec]
    congr 1
    omega

theorem natToDec_noSpace (n : Nat) : ∀ c ∈ (natToDec n).data, c ≠ ' ' := by
  intro c hc
  exact (digit_ne_signs ((natToDec_spec n).1 c hc)).2.2

theorem intToDec_noSpace (i : Int) : ∀ c ∈ (intToDec i).data, c ≠ ' ' := by
  intro c hc
  rcases lt_or_ge i 0 with hneg | hpos
  · rw [show intToDec i = "-" ++ natToDec i.natAbs by simp [intToDec, hneg],
      String.data_append] at hc
    rcases List.mem_cons.mp hc with h | h
    · subst h; decide
    · exact natToDec_noSpace _ c h
  · rw [show intToDec i = natToDec i.natAbs by simp [intToDec, not_lt.mpr hpos]] at hc
    exact natToDec_noSpace _ c hc

theorem goTrim_intToDec (i : Int) : goTrim (intToDec i) = intToDec i := by
  have := goTrim_eq_self (l := (intToDec i).data) (intToDec_noSpace i)
  exact this



/-! ## Helper lemmas: hex encoding -/

theorem hexDigitVal_capDigit : ∀ d, d < 16 → ∀ u : Bool,
    hexDigitVal (capDigit (hexDigitChar d) u) = some d := by
  decide

theorem hexDigitVal_hexDigitChar : ∀ d, d < 16 → hexDigitVal (hexDigitChar d) = some d := by
  decide

theorem hexDigitChar_ne_space : ∀ d, d < 16 → hexDigitChar d ≠ ' ' := by
  decide

theorem capDigit_hex_ne_space : ∀ d, d < 16 → ∀ u : Bool,
    capDigit (hexDigitChar d) u ≠ ' ' := by
  decide

theorem mem_flatten_byteToHex {bs : List Nat} (h : ∀ b ∈ bs, b < 256) :
    ∀ c ∈ (bs.map byteToHex).flatten, ∃ d, d < 16 ∧ c = hexDigitChar d := by
  intro c hc
  rw [List.mem_flatten] at hc
  obtain ⟨l, hl, hcl⟩ := hc
  rw [List.mem_map] at hl
  obtain ⟨b, hb, rfl⟩ := hl
  have hb256 : b < 256 := h b hb
  simp only [byteToHex, List.mem_cons, List.not_mem_nil, or_false] at hcl
  rcases hcl with h1 | h1 <;> subst h1
  · exact ⟨b / 16, by omega, rfl⟩
  · exact ⟨b % 16, Nat.mod_lt _ (by norm_num), rfl⟩

theorem applyCaps_hex_ne_space {l : List Char}
    (h : ∀ c ∈ l, ∃ d, d < 16 ∧ c = hexDigitChar d) :
    ∀ caps, ∀ c ∈ applyCaps caps l, c ≠ ' ' := by
  induction l with
  | nil => intro caps c hc; simp [applyCaps] at hc
  | cons c0 rest ih =>
    intro caps c hc
    obtain ⟨d, hd, rfl⟩ := h c0 (by simp)
    have hrest : ∀ c ∈ rest, ∃ d, d < 16 ∧ c = hexDigitChar d :=
      fun x hx => h x (by simp [hx])
    cases caps with
    | nil =>
      rw [applyCaps_nil] at hc
      rcases List.mem_cons.mp hc with h1 | h1
      · subst h1; exact hexDigitChar_ne_space d hd
      · exact ih hrest [] c (by rw [applyCaps_nil]; exact h1)
    | cons u us =>
      rcases List.mem_cons.mp hc with h1 | h1
      · subst h1; exact capDigit_hex_ne_space d hd u
      · exact ih hrest us c h1

theorem hexDecodeList_applyCaps :
    ∀ (bs : List Nat) (caps : List Bool), (∀ b ∈ bs, b < 256) →
    hexDecodeList (applyCaps caps (bs.map byteToHex).flatten) = some bs := by
  intro bs
  induction bs with
  | nil =>
    intro caps _
    simp [applyCaps, hexDecodeList]
  | cons b rest ih =>
    intro caps hb
    have hb256 : b < 256 := hb b (by simp)
    have hhi : b / 16 < 16 := by omega
    have hlo : b % 16 < 16 := Nat.mod_lt _ (by norm_num)
    have hrest : ∀ x ∈ rest, x < 256 := fun x hx => hb x (by simp [hx])
    have hflat : ((b :: rest).map byteToHex).flatten
        = hexDigitChar (b / 16) :: hexDigitChar (b % 16) :: (rest.map byteToHex).flatten := by
      simp [byteToHex]
    rw [hflat]
    have hval : b / 16 * 16 + b % 16 = b := by omega
    rcases caps with _ | ⟨u1, _ | ⟨u2, us⟩⟩
    · rw [applyCaps_nil]
      have etail := ih [] hrest
      rw [applyCaps_nil] at etail
      simp only [hexDecodeList, hexDigitVal_hexDigitChar _ hhi,
        hexDigitVal_hexDigitChar _ hlo, etail, hval]
    · show hexDecodeList (capDigit (hexDigitChar (b / 16)) u1 ::
        applyCaps [] (hexDigitChar (b % 16) :: (rest.map byteToHex).flatten)) = _
      rw [applyCaps_nil]
      have etail := ih [] hrest
      rw [applyCaps_nil] at etail
      simp only [hexDecodeList, hexDigitVal_capDigit _ hhi u1,
        hexDigitVal_hexDigitChar _ hlo, etail, hval]
    · show hexDecodeList (capDigit (hexDigitChar (b / 16)) u1 ::
        capDigit (hexDigitChar (b % 16)) u2 ::
        applyCaps us (rest.map byteToHex).flatten) = _
      simp only [hexDecodeList, hexDigitVal_capDigit _ hhi u1,
        hexDigitVal_capDigit _ hlo u2, ih us hrest, hval]

theorem hexDecodeList_flatten {bs : List Nat} (h : ∀ b ∈ bs, b < 256) :
    hexDecodeList ((bs.map byteToHex).flatten) = some bs := by
  have := hexDecodeList_applyCaps bs [] h
  rwa [applyCaps_nil] at this

theorem fitBytes_eq_self {n : Nat} {bs : List Nat} (h : bs.length = n) :
    fitBytes n bs = bs := by
  unfold fitBytes
  rw [if_neg (by omega)]
  simp [h]



theorem goTrim_eq_self2 (s : String) (h : ∀ c ∈ s.data, c ≠ ' ') : goTrim s = s := by
  obtain ⟨l⟩ := s
  exact goTrim_eq_self h

theorem goTrim_natToDec (n : Nat) : goTrim (natToDec n) = natToDec n :=
  goTrim_eq_self2 _ (natToDec_noSpace n)

theorem fitBytes_length (n : Nat) (bs : List Nat) : (fitBytes n bs).length = n := by
  unfold fitBytes
  split
  · simp only [List.length_append, List.length_replicate, List.length_drop]
    omega
  · simp only [List.length_append, List.length_replicate]
    omega

/-- C7: for a Bool descriptor, parse yields `true` exactly when the
trimmed input is `"true"`, `"True"` or `"1"`, `false` on every other
input, and never an error. -/
theorem c7_bool_leniency :
    ∀ (size : Nat) (elem : Option AbiType) (val : String),
    contractStringToValue (.mk .boolTy size elem) val
      = .ok (.vbool (decide (goTrim val = "true" ∨ goTrim val = "True" ∨ goTrim val = "1"))) := by
  intro size elem val
  show (if goTrim val = "true" ∨ goTrim val = "True" ∨ goTrim val = "1"
    then GoRes.ok (Value.vbool true) else GoRes.ok (Value.vbool false)) = _
  by_cases h : goTrim val = "true" ∨ goTrim val = "True" ∨ goTrim val = "1" <;>
    simp [h]

/-- C3: for widths 8/16/32/64, a valid base-10 integer parses to the low
`width` bits of the integer's unsigned 64-bit representation
(`big.Int.Uint64`), not to an overflow error; any other width returns
the arbitrary-precision value unmodified. -/
theorem c3_integer_truncation :
    (∀ (w : Nat) (elem : Option AbiType) (s : String) (n : Int),
      (w = 8 ∨ w = 16 ∨ w = 32 ∨ w = 64) → setString10 (goTrim s) = some n →
      contractStringToValue (.mk .uintTy w elem) s = .ok (.vuint w (bigUint64 n % 2 ^ w)) ∧
      contractStringToValue (.mk .intTy w elem) s = .ok (.vint w (toSigned w (bigUint64 n)))) ∧
    (∀ (w : Nat) (elem : Option AbiType) (s : String) (n : Int),
      64 < w → setString10 (goTrim s) = some n →
      contractStringToValue (.mk .uintTy w elem) s = .ok (.vbig n) ∧
      contractStringToValue (.mk .intTy w elem) s = .ok (.vbig n)) := by
  constructor
  · intro w elem s n hw hn
    rcases hw with rfl | rfl | rfl | rfl <;>
      exact ⟨by simp [contractStringToValue, hn], by simp [contractStringToValue, hn]⟩
  · intro w elem s n hw hn
    constructor
    · simp only [contractStringToValue, hn]
      rw [if_neg (by omega), if_neg (by omega), if_neg (by omega), if_neg (by omega)]
    · simp only [contractStringToValue, hn]
      rw [if_neg (by omega), if_neg (by omega), if_neg (by omega), if_neg (by omega)]

/-- Witness for C3 at the spec's own example: `parse(UnsignedInt{8}, "300")`
yields `44`. -/
theorem c3_integer_truncation_witness :
    setString10 (goTrim "300") = some 300 ∧
    contractStringToValue (.mk .uintTy 8 none) "300" = .ok (.vuint 8 44) := by
  refine ⟨by decide, ?_⟩
  have h := (c3_integer_truncation.1 8 none "300" 300 (Or.inl rfl) (by decide)).1
  rw [h]
  rfl

/-- C1 (code evaluated at the failing input): a FixedBytes descriptor of
size 4 on invalid hex input returns the zero-filled 4-byte buffer with
no error, instead of the BadHex failure the spec requires. -/
theorem c1_fixedbytes_invalid_hex_silent_zero :
    contractStringToValue (.mk .fixedBytesTy 4 none) "zz"
      = .ok (.vfixedBytes [0, 0, 0, 0]) := rfl

/-- C4 counterexample: on input `"zz"`, which is not valid hex, the
Address branch still succeeds (the lenient primitive yields the zero
address); parse cannot fail there. -/
theorem c4_address_counterexample :
    contractStringToValue (.mk .addressTy 20 none) "zz"
      = .ok (.vaddress (List.replicate 20 0)) := rfl

/-- C4 amended: the Address branch interprets the trimmed input through
the lenient hex address primitive and always succeeds with a 20-byte
address; it never returns an error. -/
theorem c4_address_amended :
    ∀ (size : Nat) (elem : Option AbiType) (val : String),
    contractStringToValue (.mk .addressTy size elem) val
      = .ok (.vaddress (hexToAddress (goTrim val)))
    ∧ (hexToAddress (goTrim val)).length = 20 :=
  fun _ _ _ => ⟨rfl, fitBytes_length 20 _⟩

/-- C6: for a FixedBytes descriptor of size in [1,32] and valid hex
decoding to at most `size` bytes, parse right-aligns the decoded bytes
into a zero-padded buffer of length `size`. -/
theorem c6_fixedbytes_padding :
    ∀ (size : Nat) (elem : Option AbiType) (val : String) (decoded : List Nat),
    1 ≤ size → size ≤ 32 →
    hexDecode (trimPrefix0x (goTrim val)) = some decoded →
    decoded.length ≤ size →
    contractStringToValue (.mk .fixedBytesTy size elem) val
      = .ok (.vfixedBytes (List.replicate (size - decoded.length) 0 ++ decoded)) := by
  intro size elem val decoded h1 h2 hdec hlen
  simp only [contractStringToValue, hdec]
  rw [if_neg (by omega), if_pos ⟨h1, h2⟩]

/-- Witness for C6 at the spec's own example: `parse(FixedBytes{4}, "0xab")`
yields `[0x00, 0x00, 0x00, 0xab]`. -/
theorem c6_fixedbytes_padding_witness :
    hexDecode (trimPrefix0x (goTrim "0xab")) = some [171] ∧
    contractStringToValue (.mk .fixedBytesTy 4 none) "0xab"
      = .ok (.vfixedBytes [0, 0, 0, 171]) := by
  refine ⟨by decide, ?_⟩
  have h := c6_fixedbytes_padding 4 none "0xab" [171]
    (by norm_num) (by norm_num) (by decide) (by norm_num)
  rw [h]
  rfl

/-- C9: for a FixedBytes descriptor, valid hex decoding to strictly more
than `size` bytes drives the Go slice expression's lower bound negative
and the function panics rather than returning a value or an error. -/
theorem c9_fixedbytes_overflow_crash :
    ∀ (size : Nat) (elem : Option AbiType) (val : String) (decoded : List Nat),
    1 ≤ size → size ≤ 32 →
    hexDecode (trimPrefix0x (goTrim val)) = some decoded →
    size < decoded.length →
    contractStringToValue (.mk .fixedBytesTy size elem) val
      = .crash "slice bounds out of range" := by
  intro size elem val decoded h1 h2 hdec hlen
  simp only [contractStringToValue, hdec]
  rw [if_pos hlen]

/-- Witness for C9: size 1 with two decoded bytes panics. -/
theorem c9_fixedbytes_overflow_crash_witness :
    hexDecode (trimPrefix0x (goTrim "0xabcd")) = some [171, 205] ∧
    contractStringToValue (.mk .fixedBytesTy 1 none) "0xabcd"
      = .crash "slice bounds out of range" := by
  refine ⟨by decide, ?_⟩
  exact c9_fixedbytes_overflow_crash 1 none "0xabcd" [171, 205]
    (by norm_num) (by norm_num) (by decide) (by norm_num)

/-- C8: a method declaring zero outputs unpacks to the empty sequence
with no error for every raw data blob, independently of the binary
decode function (which is therefore never invoked). -/
theorem c8_zero_output_unpack :
    ∀ (methods : String → Option (List AbiType)) (name : String)
      (decode decode2 : List AbiType → List Nat → Except String (List Value))
      (data : List Nat),
    methods name = some [] →
    contractUnpack methods name decode data = .ok [] ∧
    contractUnpack methods name decode data = contractUnpack methods name decode2 data := by
  intro methods name decode decode2 data h
  constructor <;> simp only [contractUnpack, h]

/-- Witness for C8 at a concrete one-method table, an always-failing
decoder and nonempty raw data. -/
theorem c8_zero_output_unpack_witness :
    contractUnpack (fun n => if n = "f" then some [] else none) "f"
      (fun _ _ => .error "boom") [1, 2, 3] = .ok [] :=
  (c8_zero_output_unpack (fun n => if n = "f" then some [] else none) "f"
    (fun _ _ => .error "boom") (fun _ _ => .error "boom") [1, 2, 3] rfl).1



/-- C10 counterexample: with a populated cache (`some 7`) but a client
whose block-number fetch fails, `CurrentBaseFee` returns the fetch error,
not the cached value — refuting "every subsequent call returns exactly
that cached value". -/
theorem c10_cache_counterexample :
    (CurrentBaseFee (.ok 3) (fun h => (h : Int))
      ⟨some ⟨.error "boom", fun _ => .ok 5⟩, some 7⟩).1 = .error "boom" := rfl

/-- C10 amended: a populated cache is served unchanged in the nil-client
path unconditionally and in the non-nil-client path whenever both
chain-head fetches succeed; the connection state (hence the cache) is
never modified once the cache is populated, and the non-nil-client path
never writes the cache at all; with an empty cache and successful
fetches, the non-nil-client path returns exactly the base fee computed
from the fetched header and still leaves the cache unwritten. -/
theorem c10_basefee_cache_amended :
    (∀ (configWei : Except String Int) (calcBF : Nat → Int) (c : Conn) (v : Int),
      c.baseFeePerGas = some v →
      (CurrentBaseFee configWei calcBF c).2 = c ∧
      (c.client = none → (CurrentBaseFee configWei calcBF c).1 = .ok v) ∧
      (∀ (client : GoClient) (bn header : Nat), c.client = some client →
        client.blockNumber = .ok bn →
        client.blockByNumber (toSigned 64 bn) = .ok header →
        (CurrentBaseFee configWei calcBF c).1 = .ok v)) ∧
    (∀ (configWei : Except String Int) (calcBF : Nat → Int) (c : Conn)
      (client : GoClient), c.client = some client →
      (CurrentBaseFee configWei calcBF c).2 = c) ∧
    (∀ (configWei : Except String Int) (calcBF : Nat → Int) (c : Conn)
      (client : GoClient) (bn header : Nat),
      c.client = some client → c.baseFeePerGas = none →
      client.blockNumber = .ok bn →
      client.blockByNumber (toSigned 64 bn) = .ok header →
      (CurrentBaseFee configWei calcBF c).1 = .ok (calcBF header) ∧
      (CurrentBaseFee configWei calcBF c).2 = c) := by
  refine ⟨?_, ?_, ?_⟩
  · intro configWei calcBF c v hv
    obtain ⟨cl, bf⟩ := c
    simp only at hv
    subst hv
    refine ⟨?_, ?_, ?_⟩
    · cases cl with
      | none => rfl
      | some client =>
        rcases hbn : client.blockNumber with e | bn
        · simp [CurrentBaseFee, hbn]
        · rcases hbb : client.blockByNumber (toSigned 64 bn) with e | header
          · simp [CurrentBaseFee, hbn, hbb]
          · simp [CurrentBaseFee, hbn, hbb]
    · intro hcl
      simp only at hcl
      subst hcl
      rfl
    · intro client bn header hcl hbn hblock
      simp only at hcl
      subst hcl
      simp only [CurrentBaseFee, hbn, hblock]
  · intro configWei calcBF c client hcl
    obtain ⟨cl, bf⟩ := c
    simp only at hcl
    subst hcl
    rcases hbn : client.blockNumber with e | bn
    · simp [CurrentBaseFee, hbn]
    · rcases hbb : client.blockByNumber (toSigned 64 bn) with e | header
      · simp [CurrentBaseFee, hbn, hbb]
      · cases bf <;> simp [CurrentBaseFee, hbn, hbb]
  · intro configWei calcBF c client bn header hcl hbf hbn hblock
    obtain ⟨cl, bf⟩ := c
    simp only at hcl hbf
    subst hcl
    subst hbf
    constructor <;> simp [CurrentBaseFee, hbn, hblock]

/-- Witness for C10 amended: a concrete connection with cache `some 7`
and successful fetches returns the cached value and leaves the state
unchanged; the same connection with an empty cache returns the base fee
computed from the fetched header (payload `5`) without writing the
cache. -/
theorem c10_basefee_cache_amended_witness :
    (CurrentBaseFee (.error "no config") (fun h => (h : Int))
      ⟨some ⟨.ok 1, fun _ => .ok 5⟩, some 7⟩).1 = .ok 7 ∧
    (CurrentBaseFee (.error "no config") (fun h => (h : Int))
      ⟨some ⟨.ok 1, fun _ => .ok 5⟩, some 7⟩).2
      = ⟨some ⟨.ok 1, fun _ => .ok 5⟩, some 7⟩ ∧
    (CurrentBaseFee (.error "no config") (fun h => (h : Int))
      ⟨some ⟨.ok 1, fun _ => .ok 5⟩, none⟩).1 = .ok 5 ∧
    (CurrentBaseFee (.error "no config") (fun h => (h : Int))
      ⟨some ⟨.ok 1, fun _ => .ok 5⟩, none⟩).2
      = ⟨some ⟨.ok 1, fun _ => .ok 5⟩, none⟩ := by
  have h := c10_basefee_cache_amended.1 (.error "no config") (fun h => (h : Int))
    ⟨some ⟨.ok 1, fun _ => .ok 5⟩, some 7⟩ 7 rfl
  have hcold := c10_basefee_cache_amended.2.2 (.error "no config") (fun h => (h : Int))
    ⟨some ⟨.ok 1, fun _ => .ok 5⟩, none⟩ ⟨.ok 1, fun _ => .ok 5⟩ 1 5 rfl rfl rfl rfl
  exact ⟨h.2.2 ⟨.ok 1, fun _ => .ok 5⟩ 1 5 rfl rfl rfl, h.1, hcold.1, hcold.2⟩

/-- The slice/array rendering loop maps elementwise renderings to the
collected parts list. -/
theorem renderElems_forall2 {checksum : List Nat → List Bool} {e : AbiType}
    {elems : List Value} {parts : List String}
    (h : List.Forall₂ (fun v s => contractValueToString checksum e v = .ok s) elems parts) :
    renderElems checksum e elems = .ok parts := by
  induction h with
  | nil => rfl
  | cons ha _ ih => simp only [renderElems, ha, ih]

/-- C5: parsing a Slice or Array descriptor always fails with the
corresponding Unhandled error regardless of input, while rendering the
same descriptors succeeds given renderable elements, joining the
element renderings with `,` inside `[` `]`; the empty container renders
as `"[]"`. -/
theorem c5_container_asymmetry :
    (∀ (size : Nat) (elem : Option AbiType) (val : String),
      contractStringToValue (.mk .sliceTy size elem) val = .fail .unhandledSlice ∧
      contractStringToValue (.mk .arrayTy size elem) val = .fail .unhandledArray) ∧
    (∀ (checksum : List Nat → List Bool) (t : AbiKind) (size : Nat)
      (e : AbiType) (elems : List Value) (parts : List String),
      (t = .sliceTy ∨ t = .arrayTy) →
      List.Forall₂ (fun v s => contractValueToString checksum e v = .ok s) elems parts →
      contractValueToString checksum (.mk t size (some e)) (.vlist elems)
        = .ok ("[" ++ String.intercalate "," parts ++ "]")) ∧
    (∀ (checksum : List Nat → List Bool) (size : Nat) (e : AbiType),
      contractValueToString checksum (.mk .sliceTy size (some e)) (.vlist []) = .ok "[]" ∧
      contractValueToString checksum (.mk .arrayTy size (some e)) (.vlist []) = .ok "[]") := by
  refine ⟨fun _ _ _ => ⟨rfl, rfl⟩, ?_, fun _ _ _ => ⟨rfl, rfl⟩⟩
  intro checksum t size e elems parts ht hfa
  have hre := renderElems_forall2 hfa
  rcases ht with rfl | rfl <;> simp only [contractValueToString, hre]

/-- Witness for C5 at the spec's own example: parsing a slice of
unsigned integers fails Unhandled while rendering `[1, 2]` at that
descriptor yields `"[1,2]"`. -/
theorem c5_container_asymmetry_witness :
    contractStringToValue (.mk .sliceTy 0 (some (.mk .uintTy 256 none))) "[1,2]"
      = .fail .unhandledSlice ∧
    contractValueToString (fun _ => []) (.mk .sliceTy 0 (some (.mk .uintTy 256 none)))
      (.vlist [.vuint 256 1, .vuint 256 2]) = .ok "[1,2]" := by
  constructor
  · exact (c5_container_asymmetry.1 0 (some (.mk .uintTy 256 none)) "[1,2]").1
  · have h := c5_container_asymmetry.2.1 (fun _ => []) .sliceTy 0 (.mk .uintTy 256 none)
      [.vuint 256 1, .vuint 256 2] ["1", "2"] (Or.inl rfl)
      (.cons rfl (.cons rfl .nil))
    rw [h]
    rfl



theorem roundtrip_int_fixed (size : Nat) (elem : Option AbiType) (x : Int)
    (hw : size = 8 ∨ size = 16 ∨ size = 32 ∨ size = 64)
    (hfix : toSigned size (bigUint64 x) = x) :
    contractStringToValue (.mk .intTy size elem) (intToDec x) = .ok (.vint size x) := by
  rcases hw with rfl | rfl | rfl | rfl <;>
    simp [contractStringToValue, goTrim_intToDec, setString10_intToDec, hfix]

theorem roundtrip_int_big (size : Nat) (elem : Option AbiType) (x : Int)
    (hw : ¬(size = 8 ∨ size = 16 ∨ size = 32 ∨ size = 64)) :
    contractStringToValue (.mk .intTy size elem) (intToDec x) = .ok (.vbig x) := by
  simp only [contractStringToValue, goTrim_intToDec, setString10_intToDec]
  rw [if_neg (by tauto), if_neg (by tauto), if_neg (by tauto), if_neg (by tauto)]

theorem roundtrip_uint_fixed (size : Nat) (elem : Option AbiType) (x : Nat)
    (hw : size = 8 ∨ size = 16 ∨ size = 32 ∨ size = 64)
    (hx : x < 2 ^ size) :
    contractStringToValue (.mk .uintTy size elem) (natToDec x) = .ok (.vuint size x) := by
  have hb : bigUint64 (x : Int) = x := by
    unfold bigUint64
    rw [Int.natAbs_ofNat]
    rcases hw with rfl | rfl | rfl | rfl <;> exact Nat.mod_eq_of_lt (by omega)
  rcases hw with rfl | rfl | rfl | rfl <;>
    simp [contractStringToValue, goTrim_natToDec, setString10_natToDec, hb,
      Nat.mod_eq_of_lt hx] <;> omega

theorem roundtrip_uint_big (size : Nat) (elem : Option AbiType) (x : Int)
    (hw : ¬(size = 8 ∨ size = 16 ∨ size = 32 ∨ size = 64)) :
    contractStringToValue (.mk .uintTy size elem) (intToDec x) = .ok (.vbig x) := by
  simp only [contractStringToValue, goTrim_intToDec, setString10_intToDec]
  rw [if_neg (by tauto), if_neg (by tauto), if_neg (by tauto), if_neg (by tauto)]

theorem parse_hex_string_pieces {bs : List Nat} (caps : List Bool)
    (hall : ∀ b ∈ bs, b < 256) :
    goTrim ("0x" ++ ⟨applyCaps caps ((bs.map byteToHex).flatten)⟩)
      = "0x" ++ ⟨applyCaps caps ((bs.map byteToHex).flatten)⟩ ∧
    hexDecode (trimPrefix0x ("0x" ++ ⟨applyCaps caps ((bs.map byteToHex).flatten)⟩))
      = some bs := by
  constructor
  · apply goTrim_eq_self2
    have hdata : ("0x" ++ (⟨applyCaps caps ((bs.map byteToHex).flatten)⟩ : String)).data
        = '0' :: 'x' :: applyCaps caps ((bs.map byteToHex).flatten) := by
      rw [String.data_append]
      rfl
    intro c hc
    rw [hdata] at hc
    rcases List.mem_cons.mp hc with rfl | hc
    · decide
    rcases List.mem_cons.mp hc with rfl | hc
    · decide
    exact applyCaps_hex_ne_space (mem_flatten_byteToHex hall) caps c hc
  · rw [trimPrefix0x_append]
    exact hexDecodeList_applyCaps bs caps hall

/-- C2 counterexample: the String round trip fails on a value with
surrounding spaces, which is representable at the String descriptor and
not an integer, so it falls outside the claim's sole stated exception:
render returns `" a "` verbatim, but parsing that rendering trims to
`"a"`. -/
theorem c2_roundtrip_counterexample :
    contractValueToString (fun _ => []) (.mk .stringTy 0 none) (.vstring " a ")
      = .ok " a " ∧
    contractStringToValue (.mk .stringTy 0 none) " a " = .ok (.vstring "a") ∧
    Value.vstring "a" ≠ Value.vstring " a " := by
  refine ⟨rfl, rfl, ?_⟩
  intro h
  injection h with h2
  exact absurd h2 (by decide)

/-- C2 amended: for every scalar descriptor and representable value,
`parse (render v) = v`, except fixed-width signed integers whose value
the truncation-via-`Uint64` policy does not preserve and strings with
leading or trailing spaces (which parse-side trimming alters). -/
theorem c2_roundtrip_amended :
    ∀ (checksum : List Nat → List Bool) (d : AbiType) (v : Value),
    representable d v = true → unexcepted d v = true →
    ∃ s, contractValueToString checksum d v = .ok s ∧
      contractStringToValue d s = .ok v := by
  intro checksum d v hrep hexc
  obtain ⟨t, size, elem⟩ := d
  cases t <;> cases v <;> try exact absurd hrep Bool.false_ne_true
  -- SignedInt, fixed width
  · rename_i w x
    simp only [representable, Bool.and_eq_true, Bool.or_eq_true, beq_iff_eq,
      decide_eq_true_eq] at hrep
    obtain ⟨⟨⟨hw2, hw⟩, _⟩, _⟩ := hrep
    subst hw2
    simp only [unexcepted, decide_eq_true_eq] at hexc
    exact ⟨intToDec x, rfl, roundtrip_int_fixed w elem x (by tauto) hexc⟩
  -- SignedInt, arbitrary precision
  · rename_i x
    simp only [representable, Bool.not_eq_true', Bool.or_eq_false_iff,
      beq_eq_false_iff_ne, ne_eq] at hrep
    obtain ⟨⟨⟨h8, h16⟩, h32⟩, h64⟩ := hrep
    exact ⟨intToDec x, rfl, roundtrip_int_big size elem x (by tauto)⟩
  -- UnsignedInt, fixed width
  · rename_i w x
    simp only [representable, Bool.and_eq_true, Bool.or_eq_true, beq_iff_eq,
      decide_eq_true_eq] at hrep
    obtain ⟨⟨hw2, hw⟩, hx⟩ := hrep
    subst hw2
    exact ⟨natToDec x, rfl, roundtrip_uint_fixed w elem x (by tauto) hx⟩
  -- UnsignedInt, arbitrary precision
  · rename_i x
    simp only [representable, Bool.and_eq_true, Bool.not_eq_true',
      Bool.or_eq_false_iff, beq_eq_false_iff_ne, ne_eq, decide_eq_true_eq] at hrep
    obtain ⟨⟨⟨⟨h8, h16⟩, h32⟩, h64⟩, _⟩ := hrep
    exact ⟨intToDec x, rfl, roundtrip_uint_big size elem x (by tauto)⟩
  -- Bool
  · rename_i b
    cases b
    · refine ⟨"false", rfl, ?_⟩
      show (if goTrim "false" = "true" ∨ goTrim "false" = "True" ∨ goTrim "false" = "1"
        then GoRes.ok (Value.vbool true) else GoRes.ok (Value.vbool false))
          = GoRes.ok (Value.vbool false)
      rw [if_neg (by decide)]
    · refine ⟨"true", rfl, ?_⟩
      show (if goTrim "true" = "true" ∨ goTrim "true" = "True" ∨ goTrim "true" = "1"
        then GoRes.ok (Value.vbool true) else GoRes.ok (Value.vbool false))
          = GoRes.ok (Value.vbool true)
      rw [if_pos (Or.inl (by decide))]
  -- String
  · rename_i s
    simp only [unexcepted, beq_iff_eq] at hexc
    refine ⟨s, rfl, ?_⟩
    show GoRes.ok (Value.vstring (goTrim s)) = GoRes.ok (Value.vstring s)
    rw [hexc]
  -- Address
  · rename_i bs
    simp only [representable, Bool.and_eq_true, beq_iff_eq, List.all_eq_true,
      decide_eq_true_eq] at hrep
    obtain ⟨hlen, hall⟩ := hrep
    have hp := parse_hex_string_pieces (checksum bs) hall
    refine ⟨addressHex checksum bs, rfl, ?_⟩
    show GoRes.ok (Value.vaddress (hexToAddress (goTrim (addressHex checksum bs)))) = _
    rw [show addressHex checksum bs
      = "0x" ++ ⟨applyCaps (checksum bs) ((bs.map byteToHex).flatten)⟩ from rfl]
    rw [hp.1]
    unfold hexToAddress
    rw [hp.2]
    rw [show (some bs).getD ([] : List Nat) = bs from rfl]
    rw [fitBytes_eq_self hlen]
  -- Bytes
  · rename_i bs
    simp only [representable, List.all_eq_true, decide_eq_true_eq] at hrep
    have hp := parse_hex_string_pieces ([] : List Bool) hrep
    rw [applyCaps_nil] at hp
    refine ⟨"0x" ++ hexEncode bs, rfl, ?_⟩
    have h1 : goTrim ("0x" ++ hexEncode bs) = "0x" ++ hexEncode bs := hp.1
    have h2 : hexDecode (trimPrefix0x ("0x" ++ hexEncode bs)) = some bs := hp.2
    simp only [contractStringToValue, h1, h2]
  -- Hash
  · rename_i bs
    simp only [representable, Bool.and_eq_true, beq_iff_eq, List.all_eq_true,
      decide_eq_true_eq] at hrep
    obtain ⟨hlen, hall⟩ := hrep
    have hp := parse_hex_string_pieces ([] : List Bool) hall
    rw [applyCaps_nil] at hp
    have h1 : goTrim ("0x" ++ hexEncode bs) = "0x" ++ hexEncode bs := hp.1
    have h2 : hexDecode (trimPrefix0x ("0x" ++ hexEncode bs)) = some bs := hp.2
    refine ⟨hashHex bs, rfl, ?_⟩
    show GoRes.ok (Value.vhash (hexToHash (goTrim ("0x" ++ hexEncode bs)))) = _
    rw [h1]
    unfold hexToHash
    rw [h2]
    rw [show (some bs).getD ([] : List Nat) = bs from rfl]
    rw [fitBytes_eq_self hlen]

/-- Witness for C2 amended at a concrete Bytes value. -/
theorem c2_roundtrip_amended_witness :
    representable (.mk .bytesTy 0 none) (.vbytes [171]) = true ∧
    unexcepted (.mk .bytesTy 0 none) (.vbytes [171]) = true ∧
    ∃ s, contractValueToString (fun _ => []) (.mk .bytesTy 0 none) (.vbytes [171]) = .ok s ∧
      contractStringToValue (.mk .bytesTy 0 none) s = .ok (.vbytes [171]) :=
  ⟨by decide, by decide,
    c2_roundtrip_amended (fun _ => []) (.mk .bytesTy 0 none) (.vbytes [171])
      (by decide) (by decide)⟩


end Ethereal
